import Mathlib

/-!
Verification of the background-task polling and orchestration facility.

The polling wrapper is embedded from src/task_logger.py (logged_wait_for_task).
Time is modelled by the integers (whole time units; one unit is one second, so
the source's log_throttle of 2.0 seconds is the constant 2): the k-th loop
iteration observes the task at elapsed time k * poll_interval (queries and
logging are instantaneous, sleeps are exact).  The task under observation is a
function from elapsed time to its state, and the wrapper's externally visible
behaviour is the returned result together with the ordered list of effects it
issues against the client (status queries, log lines, sleeps).
-/

/-- The lifecycle states of a task record (the status strings used throughout
src/: pending, running, completed, failed, cancelled). -/
inductive TaskState
  | pending
  | running
  | completed
  | failed
  | cancelled
  deriving DecidableEq, Repr

/-- Log lines emitted by logged_wait_for_task (src/task_logger.py). -/
inductive LogEvent
  | startPoll (target : Option TaskState)
  | transition (old : Option TaskState) (new : TaskState) (atTime : ℤ)
  | progress (current : TaskState) (polls : ℕ) (atTime : ℤ)
  | reachedTarget (current : TaskState) (atTime : ℤ) (polls : ℕ)
  | timedOut (polls : ℕ)
  deriving DecidableEq, Repr

/-- The operations the wrapper can issue against the client.  The client
interface also offers mutating operations (cancellation); that constructor is
present so that "the waiter never mutates the task" is expressible, and the
embedded wrapper never emits it because the source never calls it. -/
inductive Effect
  | getTaskStatus (k : ℕ)
  | log (e : LogEvent)
  | sleep (d : ℤ)
  | cancelTask
  deriving DecidableEq, Repr

/-- Outcome of one call of the wrapped wait_for_task. -/
inductive PollResult
  | reached (s : TaskState)
  | timedOut
  | outOfFuel
  deriving DecidableEq, Repr

/-- src/task_logger.py line 43: log_throttle = 2.0 (log every 2 seconds max). -/
def log_throttle : ℤ := 2

/-- src/task_logger.py line 46: terminal_states = {"completed", "failed"}. -/
def terminal_states : List TaskState := [TaskState.completed, TaskState.failed]

/-- src/task_logger.py lines 54-62: the log line of one iteration; a state
transition is logged unconditionally, a progress line only when the throttle
window has elapsed since the last logged line. -/
def stepEvents (last_status : Option TaskState) (current_state : TaskState)
    (poll_count : ℕ) (elapsed last_log_time : ℤ) : List Effect :=
  if some current_state ≠ last_status then
    [Effect.log (LogEvent.transition last_status current_state elapsed)]
  else if log_throttle ≤ elapsed - last_log_time then
    [Effect.log (LogEvent.progress current_state poll_count elapsed)]
  else []

/-- src/task_logger.py lines 55-57: last_status is updated on a transition. -/
def nextLastStatus (last_status : Option TaskState) (current_state : TaskState) :
    Option TaskState :=
  if some current_state ≠ last_status then some current_state else last_status

/-- src/task_logger.py lines 58, 62: last_log_time is set to the current
elapsed time whenever a line was logged. -/
def nextLastLogTime (last_status : Option TaskState) (current_state : TaskState)
    (elapsed last_log_time : ℤ) : ℤ :=
  if some current_state ≠ last_status then elapsed
  else if log_throttle ≤ elapsed - last_log_time then elapsed
  else last_log_time

/-- src/task_logger.py lines 64-73: with a named target state the loop returns
exactly on that state; with no target it returns on membership in
terminal_states. -/
def targetReached (state : Option TaskState) (current_state : TaskState) : Bool :=
  match state with
  | some st => decide (current_state = st)
  | none => decide (current_state ∈ terminal_states)

/-- The while-loop of logged_wait_for_task (src/task_logger.py lines 48-85),
with a fuel argument making the recursion structural.  The loop guard
(elapsed < timeout) is tested in both fuel branches, so a run that the source
finishes by timeout does not depend on the fuel. -/
def pollLoop (getStatus : ℤ → TaskState) (state : Option TaskState)
    (timeout poll_interval : ℤ) :
    ℕ → ℕ → Option TaskState → ℕ → ℤ → PollResult × List Effect
  | 0, k, _, poll_count, _ =>
      if (k : ℤ) * poll_interval < timeout then (PollResult.outOfFuel, [])
      else (PollResult.timedOut, [Effect.log (LogEvent.timedOut poll_count)])
  | fuel + 1, k, last_status, poll_count, last_log_time =>
      let elapsed : ℤ := (k : ℤ) * poll_interval
      if elapsed < timeout then
        let current_state := getStatus elapsed
        let logs := stepEvents last_status current_state (poll_count + 1) elapsed last_log_time
        if targetReached state current_state then
          (PollResult.reached current_state,
            Effect.getTaskStatus k :: logs
              ++ [Effect.log (LogEvent.reachedTarget current_state elapsed (poll_count + 1))])
        else
          let rest := pollLoop getStatus state timeout poll_interval fuel (k + 1)
            (nextLastStatus last_status current_state) (poll_count + 1)
            (nextLastLogTime last_status current_state elapsed last_log_time)
          (rest.1, Effect.getTaskStatus k :: logs ++ Effect.sleep poll_interval :: rest.2)
      else
        (PollResult.timedOut, [Effect.log (LogEvent.timedOut poll_count)])

/-- Enough fuel for a loop that stops once k * poll_interval reaches timeout
(any positive poll_interval). -/
def fuelFor (timeout : ℤ) : ℕ := timeout.toNat + 1

/-- src/task_logger.py lines 29-85: the wrapped wait_for_task.  The task is
given as its state over elapsed time; the result is paired with the ordered
effects the wrapper issued. -/
def logged_wait_for_task (getStatus : ℤ → TaskState) (state : Option TaskState)
    (timeout poll_interval : ℤ) : PollResult × List Effect :=
  let run := pollLoop getStatus state timeout poll_interval
    (fuelFor timeout) 0 none 0 0
  (run.1, Effect.log (LogEvent.startPoll state) :: run.2)

example :
    (logged_wait_for_task (fun _ => TaskState.completed) none 10 1).1
      = PollResult.reached TaskState.completed := by decide

example :
    (logged_wait_for_task (fun _ => TaskState.cancelled) none 3 1).1
      = PollResult.timedOut := by decide

example :
    (logged_wait_for_task (fun _ => TaskState.failed) (some TaskState.completed) 3 1).1
      = PollResult.timedOut := by decide

example :
    (logged_wait_for_task (fun t => if t < 2 then TaskState.running else TaskState.completed)
      none 10 1).2
      = [Effect.log (LogEvent.startPoll none),
         Effect.getTaskStatus 0,
         Effect.log (LogEvent.transition none TaskState.running 0),
         Effect.sleep 1,
         Effect.getTaskStatus 1,
         Effect.sleep 1,
         Effect.getTaskStatus 2,
         Effect.log (LogEvent.transition (some TaskState.running) TaskState.completed 2),
         Effect.log (LogEvent.reachedTarget TaskState.completed 2 3)] := by decide

lemma nextLastStatus_eq (ls : Option TaskState) (cs : TaskState) :
    nextLastStatus ls cs = some cs := by
  unfold nextLastStatus
  split
  · rfl
  · rename_i h
    exact (not_ne_iff.mp h).symm

lemma stepEvents_no_query (ls : Option TaskState) (cs : TaskState) (pc : ℕ)
    (e llt : ℤ) (j : ℕ) : Effect.getTaskStatus j ∉ stepEvents ls cs pc e llt := by
  unfold stepEvents
  split
  · simp
  · split <;> simp

lemma stepEvents_no_cancel (ls : Option TaskState) (cs : TaskState) (pc : ℕ)
    (e llt : ℤ) : Effect.cancelTask ∉ stepEvents ls cs pc e llt := by
  unfold stepEvents
  split
  · simp
  · split <;> simp

lemma mem_stepEvents_progress (ls : Option TaskState) (cs : TaskState) (pc : ℕ)
    (e llt : ℤ) (s : TaskState) (c : ℕ) (t : ℤ)
    (h : Effect.log (LogEvent.progress s c t) ∈ stepEvents ls cs pc e llt) :
    log_throttle ≤ e - llt ∧ s = cs ∧ c = pc ∧ t = e := by
  unfold stepEvents at h
  split at h
  · simp at h
  · split at h
    · rename_i hthr
      simp at h
      exact ⟨hthr, h.1, h.2.1, h.2.2⟩
    · simp at h

/-- Whenever the target predicate fails at every instant before the timeout
(the loop only ever observes such instants), a sufficiently fuelled loop ends
in timeout. -/
lemma pollLoop_timedOut_of_never (getStatus : ℤ → TaskState) (state : Option TaskState)
    (timeout p : ℤ)
    (hmiss : ∀ t, t < timeout → targetReached state (getStatus t) = false) :
    ∀ (fuel k : ℕ) (ls : Option TaskState) (pc : ℕ) (llt : ℤ),
      timeout ≤ ((fuel : ℤ) + (k : ℤ)) * p →
      (pollLoop getStatus state timeout p fuel k ls pc llt).1 = PollResult.timedOut := by
  intro fuel
  induction fuel with
  | zero =>
    intro k ls pc llt hf
    simp only [pollLoop]
    rw [if_neg]
    push_cast at hf
    linarith
  | succ fuel ih =>
    intro k ls pc llt hf
    simp only [pollLoop]
    by_cases hg : (k : ℤ) * p < timeout
    · rw [if_pos hg]
      simp only [hmiss ((k : ℤ) * p) hg, Bool.false_eq_true, if_false]
      apply ih
      push_cast
      push_cast at hf
      linarith
    · rw [if_neg hg]

/-- The loop only returns a state satisfying the target predicate. -/
lemma pollLoop_reached_sound (getStatus : ℤ → TaskState) (state : Option TaskState)
    (timeout p : ℤ) :
    ∀ (fuel k : ℕ) (ls : Option TaskState) (pc : ℕ) (llt : ℤ) (r : TaskState),
      (pollLoop getStatus state timeout p fuel k ls pc llt).1 = PollResult.reached r →
      targetReached state r = true := by
  intro fuel
  induction fuel with
  | zero =>
    intro k ls pc llt r h
    simp only [pollLoop] at h
    split at h <;> simp at h
  | succ fuel ih =>
    intro k ls pc llt r h
    simp only [pollLoop] at h
    split at h
    · split at h
      · rename_i htr
        simp at h
        rw [← h]
        exact htr
      · exact ih _ _ _ _ _ h
    · simp at h

/-- The wrapper never issues a cancellation (or any other mutation). -/
lemma pollLoop_no_cancel (getStatus : ℤ → TaskState) (state : Option TaskState)
    (timeout p : ℤ) :
    ∀ (fuel k : ℕ) (ls : Option TaskState) (pc : ℕ) (llt : ℤ),
      Effect.cancelTask ∉ (pollLoop getStatus state timeout p fuel k ls pc llt).2 := by
  intro fuel
  induction fuel with
  | zero =>
    intro k ls pc llt h
    simp only [pollLoop] at h
    split at h <;> simp at h
  | succ fuel ih =>
    intro k ls pc llt h
    simp only [pollLoop] at h
    split at h
    · split at h
      · dsimp only at h
        simp only [List.mem_append, List.mem_cons, List.mem_singleton] at h
        rcases h with (h | h) | h
        · simp at h
        · exact stepEvents_no_cancel _ _ _ _ _ h
        · simp at h
      · dsimp only at h
        simp only [List.mem_append, List.mem_cons] at h
        rcases h with (h | h) | h | h
        · simp at h
        · exact stepEvents_no_cancel _ _ _ _ _ h
        · simp at h
        · exact ih _ _ _ _ h
    · simp at h

/-- Every status query issued from iteration k onwards has index at least k. -/
lemma pollLoop_query_ge (getStatus : ℤ → TaskState) (state : Option TaskState)
    (timeout p : ℤ) :
    ∀ (fuel k : ℕ) (ls : Option TaskState) (pc : ℕ) (llt : ℤ) (j : ℕ),
      Effect.getTaskStatus j ∈ (pollLoop getStatus state timeout p fuel k ls pc llt).2 →
      k ≤ j := by
  intro fuel
  induction fuel with
  | zero =>
    intro k ls pc llt j h
    simp only [pollLoop] at h
    split at h <;> simp at h
  | succ fuel ih =>
    intro k ls pc llt j h
    simp only [pollLoop] at h
    split at h
    · split at h
      · dsimp only at h
        simp only [List.mem_append, List.mem_cons, List.mem_singleton] at h
        rcases h with (h | h) | h
        · simp at h
          omega
        · exact absurd h (stepEvents_no_query _ _ _ _ _ _)
        · simp at h
      · dsimp only at h
        simp only [List.mem_append, List.mem_cons] at h
        rcases h with (h | h) | h | h
        · simp at h
          omega
        · exact absurd h (stepEvents_no_query _ _ _ _ _ _)
        · simp at h
        · have := ih _ _ _ _ _ h
          omega
    · simp at h

lemma nextLastLogTime_ge (ls : Option TaskState) (cs : TaskState) (e llt : ℤ)
    (h : llt ≤ e) : llt ≤ nextLastLogTime ls cs e llt := by
  unfold nextLastLogTime
  split
  · exact h
  · split
    · exact h
    · exact le_refl llt

lemma nextLastLogTime_le (ls : Option TaskState) (cs : TaskState) (e llt : ℤ)
    (h : llt ≤ e) : nextLastLogTime ls cs e llt ≤ e := by
  unfold nextLastLogTime
  split
  · exact le_refl e
  · split
    · exact le_refl e
    · exact h

/-- A progress line is only emitted when the throttle window forces
last_log_time to be moved up to the current elapsed time. -/
lemma stepEvents_progress_llt (ls : Option TaskState) (cs : TaskState) (pc : ℕ)
    (e llt : ℤ) (s : TaskState) (c : ℕ) (t : ℤ)
    (h : Effect.log (LogEvent.progress s c t) ∈ stepEvents ls cs pc e llt) :
    nextLastLogTime ls cs e llt = e := by
  unfold stepEvents at h
  unfold nextLastLogTime
  split at h
  · simp at h
  · rename_i h1
    rw [if_neg h1]
    split at h
    · rename_i h2
      rw [if_pos h2]
    · simp at h

/-- If the loop queries at its own starting iteration and the state it sees
differs from the remembered one, the transition is logged. -/
lemma pollLoop_head_transition (getStatus : ℤ → TaskState) (state : Option TaskState)
    (timeout p : ℤ) (fuel k : ℕ) (ls : Option TaskState) (pc : ℕ) (llt : ℤ)
    (hq : Effect.getTaskStatus k ∈ (pollLoop getStatus state timeout p fuel k ls pc llt).2)
    (hdiff : some (getStatus ((k : ℤ) * p)) ≠ ls) :
    Effect.log (LogEvent.transition ls (getStatus ((k : ℤ) * p)) ((k : ℤ) * p)) ∈
      (pollLoop getStatus state timeout p fuel k ls pc llt).2 := by
  cases fuel with
  | zero =>
    simp only [pollLoop] at hq
    split at hq <;> simp at hq
  | succ fuel =>
    simp only [pollLoop] at hq ⊢
    by_cases hg : (k : ℤ) * p < timeout
    · rw [if_pos hg] at hq ⊢
      have hstep : stepEvents ls (getStatus ((k : ℤ) * p)) (pc + 1) ((k : ℤ) * p) llt
          = [Effect.log (LogEvent.transition ls (getStatus ((k : ℤ) * p)) ((k : ℤ) * p))] := by
        unfold stepEvents
        rw [if_pos hdiff]
      by_cases ht : targetReached state (getStatus ((k : ℤ) * p)) = true
      · rw [if_pos ht]
        dsimp only
        rw [hstep]
        simp
      · rw [if_neg ht]
        dsimp only
        rw [hstep]
        simp
    · rw [if_neg hg] at hq
      simp at hq

/-- Every observed state transition is logged: whenever the loop queried at two
consecutive iterations j and j+1 and the observed states differ, the
corresponding transition line is in the effect list. -/
lemma pollLoop_transition_logged (getStatus : ℤ → TaskState) (state : Option TaskState)
    (timeout p : ℤ) :
    ∀ (fuel k : ℕ) (ls : Option TaskState) (pc : ℕ) (llt : ℤ) (j : ℕ),
      k ≤ j →
      Effect.getTaskStatus (j + 1) ∈ (pollLoop getStatus state timeout p fuel k ls pc llt).2 →
      getStatus (((j + 1 : ℕ) : ℤ) * p) ≠ getStatus ((j : ℤ) * p) →
      Effect.log (LogEvent.transition (some (getStatus ((j : ℤ) * p)))
          (getStatus (((j + 1 : ℕ) : ℤ) * p)) (((j + 1 : ℕ) : ℤ) * p)) ∈
        (pollLoop getStatus state timeout p fuel k ls pc llt).2 := by
  intro fuel
  induction fuel with
  | zero =>
    intro k ls pc llt j hkj hq hne
    simp only [pollLoop] at hq
    split at hq <;> simp at hq
  | succ fuel ih =>
    intro k ls pc llt j hkj hq hne
    simp only [pollLoop] at hq ⊢
    by_cases hg : (k : ℤ) * p < timeout
    · rw [if_pos hg] at hq ⊢
      by_cases ht : targetReached state (getStatus ((k : ℤ) * p)) = true
      · rw [if_pos ht] at hq
        exfalso
        dsimp only at hq
        simp only [List.mem_append, List.mem_cons, List.mem_singleton] at hq
        rcases hq with (hq | hq) | hq
        · simp at hq
          omega
        · exact stepEvents_no_query _ _ _ _ _ _ hq
        · simp at hq
      · rw [if_neg ht] at hq ⊢
        dsimp only at hq ⊢
        have hqrest : Effect.getTaskStatus (j + 1) ∈
            (pollLoop getStatus state timeout p fuel (k + 1)
              (nextLastStatus ls (getStatus ((k : ℤ) * p))) (pc + 1)
              (nextLastLogTime ls (getStatus ((k : ℤ) * p)) ((k : ℤ) * p) llt)).2 := by
          simp only [List.mem_append, List.mem_cons] at hq
          rcases hq with (hq | hq) | hq | hq
          · simp at hq
            omega
          · exact absurd hq (stepEvents_no_query _ _ _ _ _ _)
          · simp at hq
          · exact hq
        rcases Nat.lt_or_ge k j with hlt | hge
        · have hmem := ih (k + 1) _ _ _ j (by omega) hqrest hne
          simp only [List.mem_append, List.mem_cons]
          right
          right
          exact hmem
        · have hkeq : k = j := Nat.le_antisymm hkj hge
          subst hkeq
          have hd : some (getStatus (((k + 1 : ℕ) : ℤ) * p))
              ≠ nextLastStatus ls (getStatus ((k : ℤ) * p)) := by
            rw [nextLastStatus_eq]
            intro hcon
            apply hne
            exact Option.some.inj hcon
          have hmem := pollLoop_head_transition getStatus state timeout p fuel (k + 1)
            (nextLastStatus ls (getStatus ((k : ℤ) * p))) (pc + 1)
            (nextLastLogTime ls (getStatus ((k : ℤ) * p)) ((k : ℤ) * p) llt) hqrest hd
          simp only [List.mem_append, List.mem_cons]
          right
          right
          rw [nextLastStatus_eq] at hmem ⊢
          exact hmem
    · rw [if_neg hg] at hq
      simp at hq

/-- Any progress line emitted from an iteration where last_log_time is llt
carries a time at least one throttle window after llt. -/
lemma pollLoop_progress_lb (getStatus : ℤ → TaskState) (state : Option TaskState)
    (timeout p : ℤ) (hp : 0 ≤ p) :
    ∀ (fuel k : ℕ) (ls : Option TaskState) (pc : ℕ) (llt : ℤ),
      llt ≤ (k : ℤ) * p →
      ∀ (s : TaskState) (c : ℕ) (t : ℤ),
        Effect.log (LogEvent.progress s c t)
          ∈ (pollLoop getStatus state timeout p fuel k ls pc llt).2 →
        llt + log_throttle ≤ t := by
  intro fuel
  induction fuel with
  | zero =>
    intro k ls pc llt hllt s c t h
    simp only [pollLoop] at h
    split at h <;> simp at h
  | succ fuel ih =>
    intro k ls pc llt hllt s c t h
    simp only [pollLoop] at h
    by_cases hg : (k : ℤ) * p < timeout
    · rw [if_pos hg] at h
      by_cases ht : targetReached state (getStatus ((k : ℤ) * p)) = true
      · rw [if_pos ht] at h
        dsimp only at h
        simp only [List.mem_append, List.mem_cons, List.mem_singleton] at h
        rcases h with (h | h) | h
        · simp at h
        · have := mem_stepEvents_progress _ _ _ _ _ _ _ _ h
          unfold log_throttle at this ⊢
          omega
        · simp at h
      · rw [if_neg ht] at h
        dsimp only at h
        simp only [List.mem_append, List.mem_cons] at h
        rcases h with (h | h) | h | h
        · simp at h
        · have := mem_stepEvents_progress _ _ _ _ _ _ _ _ h
          unfold log_throttle at this ⊢
          omega
        · simp at h
        · have hllt' : nextLastLogTime ls (getStatus ((k : ℤ) * p)) ((k : ℤ) * p) llt
              ≤ ((k + 1 : ℕ) : ℤ) * p := by
            have h1 := nextLastLogTime_le ls (getStatus ((k : ℤ) * p)) ((k : ℤ) * p) llt hllt
            have h2 : (k : ℤ) * p ≤ ((k + 1 : ℕ) : ℤ) * p := by
              push_cast
              nlinarith
            linarith
          have := ih (k + 1) _ _ _ hllt' s c t h
          have h3 := nextLastLogTime_ge ls (getStatus ((k : ℤ) * p)) ((k : ℤ) * p) llt hllt
          linarith
    · rw [if_neg hg] at h
      simp at h

/-- Throttling: two distinct progress lines of one wait are at least one
throttle window apart. -/
lemma pollLoop_progress_gap (getStatus : ℤ → TaskState) (state : Option TaskState)
    (timeout p : ℤ) (hp : 0 ≤ p) :
    ∀ (fuel k : ℕ) (ls : Option TaskState) (pc : ℕ) (llt : ℤ),
      llt ≤ (k : ℤ) * p →
      ∀ (s1 : TaskState) (c1 : ℕ) (t1 : ℤ) (s2 : TaskState) (c2 : ℕ) (t2 : ℤ),
        Effect.log (LogEvent.progress s1 c1 t1)
          ∈ (pollLoop getStatus state timeout p fuel k ls pc llt).2 →
        Effect.log (LogEvent.progress s2 c2 t2)
          ∈ (pollLoop getStatus state timeout p fuel k ls pc llt).2 →
        c1 ≠ c2 → log_throttle ≤ |t1 - t2| := by
  intro fuel
  induction fuel with
  | zero =>
    intro k ls pc llt hllt s1 c1 t1 s2 c2 t2 h1 h2 hc
    simp only [pollLoop] at h1
    split at h1 <;> simp at h1
  | succ fuel ih =>
    intro k ls pc llt hllt s1 c1 t1 s2 c2 t2 h1 h2 hc
    simp only [pollLoop] at h1 h2
    by_cases hg : (k : ℤ) * p < timeout
    · rw [if_pos hg] at h1 h2
      by_cases ht : targetReached state (getStatus ((k : ℤ) * p)) = true
      · rw [if_pos ht] at h1 h2
        dsimp only at h1 h2
        simp only [List.mem_append, List.mem_cons, List.mem_singleton] at h1 h2
        rcases h1 with (h1 | h1) | h1
        · simp at h1
        · rcases h2 with (h2 | h2) | h2
          · simp at h2
          · have e1 := mem_stepEvents_progress _ _ _ _ _ _ _ _ h1
            have e2 := mem_stepEvents_progress _ _ _ _ _ _ _ _ h2
            exact absurd (e1.2.2.1.trans e2.2.2.1.symm) hc
          · simp at h2
        · simp at h1
      · rw [if_neg ht] at h1 h2
        dsimp only at h1 h2
        simp only [List.mem_append, List.mem_cons] at h1 h2
        rcases h1 with (h1 | h1) | h1 | h1
        · simp at h1
        · -- first line emitted at this iteration: t1 = elapsed
          have e1 := mem_stepEvents_progress _ _ _ _ _ _ _ _ h1
          have hmoved := stepEvents_progress_llt _ _ _ _ _ _ _ _ h1
          rcases h2 with (h2 | h2) | h2 | h2
          · simp at h2
          · have e2 := mem_stepEvents_progress _ _ _ _ _ _ _ _ h2
            exact absurd (e1.2.2.1.trans e2.2.2.1.symm) hc
          · simp at h2
          · have hllt' : nextLastLogTime ls (getStatus ((k : ℤ) * p)) ((k : ℤ) * p) llt
                ≤ ((k + 1 : ℕ) : ℤ) * p := by
              have ha := nextLastLogTime_le ls (getStatus ((k : ℤ) * p)) ((k : ℤ) * p) llt hllt
              have hb : (k : ℤ) * p ≤ ((k + 1 : ℕ) : ℤ) * p := by
                push_cast
                nlinarith
              linarith
            have hlow := pollLoop_progress_lb getStatus state timeout p hp fuel (k + 1) _ _ _
              hllt' s2 c2 t2 h2
            rw [hmoved] at hlow
            have ht1 : t1 = (k : ℤ) * p := e1.2.2.2
            have : log_throttle ≤ t2 - t1 := by omega
            calc log_throttle ≤ t2 - t1 := this
              _ ≤ |t2 - t1| := le_abs_self _
              _ = |t1 - t2| := abs_sub_comm _ _
        · simp at h1
        · rcases h2 with (h2 | h2) | h2 | h2
          · simp at h2
          · have e2 := mem_stepEvents_progress _ _ _ _ _ _ _ _ h2
            have hmoved := stepEvents_progress_llt _ _ _ _ _ _ _ _ h2
            have hllt' : nextLastLogTime ls (getStatus ((k : ℤ) * p)) ((k : ℤ) * p) llt
                ≤ ((k + 1 : ℕ) : ℤ) * p := by
              have ha := nextLastLogTime_le ls (getStatus ((k : ℤ) * p)) ((k : ℤ) * p) llt hllt
              have hb : (k : ℤ) * p ≤ ((k + 1 : ℕ) : ℤ) * p := by
                push_cast
                nlinarith
              linarith
            have hlow := pollLoop_progress_lb getStatus state timeout p hp fuel (k + 1) _ _ _
              hllt' s1 c1 t1 h1
            rw [hmoved] at hlow
            have ht2 : t2 = (k : ℤ) * p := e2.2.2.2
            have : log_throttle ≤ t1 - t2 := by omega
            calc log_throttle ≤ t1 - t2 := this
              _ ≤ |t1 - t2| := le_abs_self _
          · simp at h2
          · have hllt' : nextLastLogTime ls (getStatus ((k : ℤ) * p)) ((k : ℤ) * p) llt
                ≤ ((k + 1 : ℕ) : ℤ) * p := by
              have ha := nextLastLogTime_le ls (getStatus ((k : ℤ) * p)) ((k : ℤ) * p) llt hllt
              have hb : (k : ℤ) * p ≤ ((k + 1 : ℕ) : ℤ) * p := by
                push_cast
                nlinarith
              linarith
            exact ih (k + 1) _ _ _ hllt' s1 c1 t1 s2 c2 t2 h1 h2 hc
    · rw [if_neg hg] at h1
      simp at h1

/-- The canonical fuel is enough: the guard fails before fuel runs out. -/
lemma fuelFor_sufficient (timeout p : ℤ) (hp : 0 < p) :
    timeout ≤ (((fuelFor timeout : ℕ) : ℤ) + ((0 : ℕ) : ℤ)) * p := by
  unfold fuelFor
  push_cast
  have h1 : timeout ≤ (timeout.toNat : ℤ) := Int.self_le_toNat timeout
  have h2 : (0 : ℤ) ≤ (timeout.toNat : ℤ) := by positivity
  nlinarith

/-- C1 (code bug evidence): the wrapper's terminal-state set omits cancelled,
so a task that is cancelled throughout the wait is never returned: the wait
with no target runs to timeout, while a completed task is returned. -/
theorem c1_cancelled_not_terminal_times_out :
    TaskState.cancelled ∉ terminal_states ∧
    (logged_wait_for_task (fun _ => TaskState.cancelled) none 3 1).1
      = PollResult.timedOut ∧
    (logged_wait_for_task (fun _ => TaskState.completed) none 3 1).1
      = PollResult.reached TaskState.completed := by
  decide

/-- C5: with a finite timeout and a task that never satisfies the target
predicate at any observation, the wait fails with TimeoutError, and the
wrapper never issues a cancellation (its only effects are status queries,
log lines and sleeps). -/
theorem c5_timeout_raises_and_never_mutates
    (getStatus : ℤ → TaskState) (state : Option TaskState) (timeout p : ℤ)
    (hp : 0 < p)
    (hmiss : ∀ t, t < timeout → targetReached state (getStatus t) = false) :
    (logged_wait_for_task getStatus state timeout p).1 = PollResult.timedOut ∧
    Effect.cancelTask ∉ (logged_wait_for_task getStatus state timeout p).2 := by
  constructor
  · exact pollLoop_timedOut_of_never getStatus state timeout p hmiss
      (fuelFor timeout) 0 none 0 0 (fuelFor_sufficient timeout p hp)
  · intro h
    simp only [logged_wait_for_task] at h
    rw [List.mem_cons] at h
    rcases h with h | h
    · simp at h
    · exact pollLoop_no_cancel getStatus state timeout p (fuelFor timeout) 0 none 0 0 h

theorem c5_timeout_raises_and_never_mutates_witness :
    ((0 : ℤ) < 1 ∧ ∀ t : ℤ, t < 3 → targetReached none
      ((fun u : ℤ => if u < 5 then TaskState.running else TaskState.completed) t) = false) ∧
    ((logged_wait_for_task
        (fun u : ℤ => if u < 5 then TaskState.running else TaskState.completed) none 3 1).1
        = PollResult.timedOut ∧
      Effect.cancelTask ∉ (logged_wait_for_task
        (fun u : ℤ => if u < 5 then TaskState.running else TaskState.completed) none 3 1).2) :=
  ⟨⟨by decide, fun t ht => by
      show targetReached none
        (if t < 5 then TaskState.running else TaskState.completed) = false
      rw [if_pos (show t < 5 by omega)]
      rfl⟩,
    c5_timeout_raises_and_never_mutates
      (fun u : ℤ => if u < 5 then TaskState.running else TaskState.completed) none 3 1
      (by decide) (fun t ht => by
        show targetReached none
          (if t < 5 then TaskState.running else TaskState.completed) = false
        rw [if_pos (show t < 5 by omega)]
        rfl)⟩

/-- C9: with a named target state, the wait returns only a record whose state
is exactly that target; a task that never shows the target state (for example
one that settles in a different terminal state) is never returned — the loop
polls until the timeout elapses and fails with TimeoutError. -/
theorem c9_named_target_exact_match_only
    (getStatus : ℤ → TaskState) (st : TaskState) (timeout p : ℤ)
    (hp : 0 < p) (hmiss : ∀ t, getStatus t ≠ st) :
    (logged_wait_for_task getStatus (some st) timeout p).1 = PollResult.timedOut ∧
    ∀ (gs' : ℤ → TaskState) (timeout' p' : ℤ) (r : TaskState),
      (logged_wait_for_task gs' (some st) timeout' p').1 = PollResult.reached r →
      r = st := by
  constructor
  · have hm : ∀ t, t < timeout → targetReached (some st) (getStatus t) = false := by
      intro t _
      unfold targetReached
      simp [hmiss t]
    exact pollLoop_timedOut_of_never getStatus (some st) timeout p hm
      (fuelFor timeout) 0 none 0 0 (fuelFor_sufficient timeout p hp)
  · intro gs' timeout' p' r h
    have hs := pollLoop_reached_sound gs' (some st) timeout' p'
      (fuelFor timeout') 0 none 0 0 r h
    unfold targetReached at hs
    simpa using hs

theorem c9_named_target_exact_match_only_witness :
    ((0 : ℤ) < 1 ∧ ∀ t : ℤ, (fun _ : ℤ => TaskState.failed) t ≠ TaskState.completed) ∧
    ((logged_wait_for_task (fun _ : ℤ => TaskState.failed) (some TaskState.completed) 3 1).1
        = PollResult.timedOut ∧
      ∀ (gs' : ℤ → TaskState) (timeout' p' : ℤ) (r : TaskState),
        (logged_wait_for_task gs' (some TaskState.completed) timeout' p').1
          = PollResult.reached r → r = TaskState.completed) :=
  ⟨⟨by decide, fun _ hcon => TaskState.noConfusion hcon⟩,
    c9_named_target_exact_match_only (fun _ : ℤ => TaskState.failed) TaskState.completed 3 1
      (by decide) (fun _ hcon => TaskState.noConfusion hcon)⟩

/-- C10: with a non-positive timeout the while-guard fails at once: the
wrapper issues no status query, observes and logs no transition or progress,
and fails with TimeoutError immediately. -/
theorem c10_nonpositive_timeout_queries_nothing
    (getStatus : ℤ → TaskState) (state : Option TaskState) (timeout p : ℤ)
    (h : timeout ≤ 0) :
    (logged_wait_for_task getStatus state timeout p).1 = PollResult.timedOut ∧
    (∀ j, Effect.getTaskStatus j ∉ (logged_wait_for_task getStatus state timeout p).2) ∧
    (∀ o n t, Effect.log (LogEvent.transition o n t)
      ∉ (logged_wait_for_task getStatus state timeout p).2) ∧
    (∀ s c t, Effect.log (LogEvent.progress s c t)
      ∉ (logged_wait_for_task getStatus state timeout p).2) := by
  have hcond : ¬ (((0 : ℕ) : ℤ) * p < timeout) := by
    simp only [Nat.cast_zero, zero_mul]
    omega
  have hrun : pollLoop getStatus state timeout p (fuelFor timeout) 0 none 0 0
      = (PollResult.timedOut, [Effect.log (LogEvent.timedOut 0)]) := by
    unfold fuelFor
    simp only [pollLoop]
    rw [if_neg hcond]
  simp only [logged_wait_for_task, hrun]
  refine ⟨by simp, ?_, ?_, ?_⟩
  · intro j
    simp
  · intro o n t
    simp
  · intro s c t
    simp

theorem c10_nonpositive_timeout_queries_nothing_witness :
    ((-2 : ℤ) ≤ 0) ∧
    ((logged_wait_for_task (fun _ : ℤ => TaskState.running) none (-2) 1).1
        = PollResult.timedOut ∧
      (∀ j, Effect.getTaskStatus j
        ∉ (logged_wait_for_task (fun _ : ℤ => TaskState.running) none (-2) 1).2) ∧
      (∀ o n t, Effect.log (LogEvent.transition o n t)
        ∉ (logged_wait_for_task (fun _ : ℤ => TaskState.running) none (-2) 1).2) ∧
      (∀ s c t, Effect.log (LogEvent.progress s c t)
        ∉ (logged_wait_for_task (fun _ : ℤ => TaskState.running) none (-2) 1).2)) :=
  ⟨by decide,
    c10_nonpositive_timeout_queries_nothing (fun _ : ℤ => TaskState.running) none (-2) 1
      (by decide)⟩

/-- C7: within one wait, every observed state transition (two consecutive
observations that differ) is logged unconditionally, while distinct
"still in state X" progress lines are at least one throttle window
(log_throttle = 2 seconds) of elapsed time apart. -/
theorem c7_transitions_logged_progress_throttled
    (getStatus : ℤ → TaskState) (state : Option TaskState) (timeout p : ℤ)
    (hp : 0 ≤ p) :
    (∀ j : ℕ,
      Effect.getTaskStatus (j + 1) ∈ (logged_wait_for_task getStatus state timeout p).2 →
      getStatus (((j + 1 : ℕ) : ℤ) * p) ≠ getStatus ((j : ℤ) * p) →
      Effect.log (LogEvent.transition (some (getStatus ((j : ℤ) * p)))
          (getStatus (((j + 1 : ℕ) : ℤ) * p)) (((j + 1 : ℕ) : ℤ) * p))
        ∈ (logged_wait_for_task getStatus state timeout p).2) ∧
    (∀ (s1 : TaskState) (c1 : ℕ) (t1 : ℤ) (s2 : TaskState) (c2 : ℕ) (t2 : ℤ),
      Effect.log (LogEvent.progress s1 c1 t1)
        ∈ (logged_wait_for_task getStatus state timeout p).2 →
      Effect.log (LogEvent.progress s2 c2 t2)
        ∈ (logged_wait_for_task getStatus state timeout p).2 →
      c1 ≠ c2 → log_throttle ≤ |t1 - t2|) := by
  constructor
  · intro j hq hne
    simp only [logged_wait_for_task] at hq ⊢
    rw [List.mem_cons] at hq
    rcases hq with hq | hq
    · simp at hq
    · rw [List.mem_cons]
      right
      exact pollLoop_transition_logged getStatus state timeout p
        (fuelFor timeout) 0 none 0 0 j (Nat.zero_le j) hq hne
  · intro s1 c1 t1 s2 c2 t2 h1 h2 hc
    simp only [logged_wait_for_task] at h1 h2
    rw [List.mem_cons] at h1 h2
    rcases h1 with h1 | h1
    · simp at h1
    · rcases h2 with h2 | h2
      · simp at h2
      · exact pollLoop_progress_gap getStatus state timeout p hp
          (fuelFor timeout) 0 none 0 0 (by simp) s1 c1 t1 s2 c2 t2 h1 h2 hc

theorem c7_transitions_logged_progress_throttled_witness :
    ((0 : ℤ) ≤ 1) ∧
    ((∀ j : ℕ,
      Effect.getTaskStatus (j + 1)
        ∈ (logged_wait_for_task (fun _ : ℤ => TaskState.running) none 3 1).2 →
      (fun _ : ℤ => TaskState.running) (((j + 1 : ℕ) : ℤ) * 1)
          ≠ (fun _ : ℤ => TaskState.running) ((j : ℤ) * 1) →
      Effect.log (LogEvent.transition
          (some ((fun _ : ℤ => TaskState.running) ((j : ℤ) * 1)))
          ((fun _ : ℤ => TaskState.running) (((j + 1 : ℕ) : ℤ) * 1))
          (((j + 1 : ℕ) : ℤ) * 1))
        ∈ (logged_wait_for_task (fun _ : ℤ => TaskState.running) none 3 1).2) ∧
    (∀ (s1 : TaskState) (c1 : ℕ) (t1 : ℤ) (s2 : TaskState) (c2 : ℕ) (t2 : ℤ),
      Effect.log (LogEvent.progress s1 c1 t1)
        ∈ (logged_wait_for_task (fun _ : ℤ => TaskState.running) none 3 1).2 →
      Effect.log (LogEvent.progress s2 c2 t2)
        ∈ (logged_wait_for_task (fun _ : ℤ => TaskState.running) none 3 1).2 →
      c1 ≠ c2 → log_throttle ≤ |t1 - t2|)) :=
  ⟨by decide,
    c7_transitions_logged_progress_throttled (fun _ : ℤ => TaskState.running) none 3 1
      (by decide)⟩

namespace TaskEngine

/-!
The task engine itself (Registry, Executor, Handle, Orchestrator join) is the
core this repository exercises, but its implementation is not under src/ —
src/ holds only its callers (asyncio.gather over task handles in
src/deep_research_orchestrated_client.py and src/demo.py, the repeated
result() calls in src/deep_research_mock_client.py).  The definitions below
are therefore modelled from the spec, as their doc comments state.
-/

/-- Modelled from the spec: the terminal outcome a Handle observes for its
task — the cached value of a completed task or the recorded failure. -/
inductive Outcome (α ε : Type)
  | success (v : α)
  | failure (e : ε)
  deriving DecidableEq, Repr

/-- Whether an outcome is a success. -/
def isSuccess {α ε : Type} : Outcome α ε → Bool
  | Outcome.success _ => true
  | Outcome.failure _ => false

/-- Modelled from the spec: a Handle over one submitted task; completesAt is
the wall-clock instant its task reaches a terminal state, outcome what the
record then holds. -/
structure Handle (α ε : Type) where
  completesAt : ℤ
  outcome : Outcome α ε
  deriving DecidableEq, Repr

/-- Modelled from the spec (section 4.5, join/gather): results come back in
the order the handles were supplied; the first failure in supplied order
fails the join. -/
def gatherOutcomes {α ε : Type} : List (Outcome α ε) → Except ε (List α)
  | [] => Except.ok []
  | Outcome.success v :: rest =>
      match gatherOutcomes rest with
      | Except.ok vs => Except.ok (v :: vs)
      | Except.error e => Except.error e
  | Outcome.failure e :: _ => Except.error e

/-- Modelled from the spec: join/gather over a list of Handles reads their
outcomes only. -/
def gather {α ε : Type} (hs : List (Handle α ε)) : Except ε (List α) :=
  gatherOutcomes (hs.map Handle.outcome)

/-- Modelled from the spec: a join suspends until every joined task is
terminal, so it completes at the latest completion instant among its
handles. -/
def joinTime {α ε : Type} (hs : List (Handle α ε)) : ℤ :=
  (hs.map Handle.completesAt).foldr max 0

/-- Modelled from the spec: joining returns the gathered result and leaves
every task untouched — in particular no task is cancelled because a sibling
failed. -/
def gatherRun {α ε : Type} (hs : List (Handle α ε)) :
    Except ε (List α) × List (Handle α ε) :=
  (gather hs, hs)

/-- The first failure among the handles in supplied order. -/
def firstFailure {α ε : Type} (hs : List (Handle α ε)) : Option ε :=
  hs.findSome? fun h =>
    match h.outcome with
    | Outcome.failure e => some e
    | Outcome.success _ => none

/-- The successful values of the handles, in supplied order. -/
def successValues {α ε : Type} (hs : List (Handle α ε)) : List α :=
  hs.filterMap fun h =>
    match h.outcome with
    | Outcome.success v => some v
    | Outcome.failure _ => none

/-- Reassign completion instants (let the tasks finish in any other
wall-clock order) without touching outcomes. -/
def retime {α ε : Type} (f : ℤ → ℤ) (hs : List (Handle α ε)) : List (Handle α ε) :=
  hs.map fun h => ⟨f h.completesAt, h.outcome⟩

lemma retime_outcomes {α ε : Type} (f : ℤ → ℤ) (hs : List (Handle α ε)) :
    (retime f hs).map Handle.outcome = hs.map Handle.outcome := by
  induction hs with
  | nil => rfl
  | cons h rest ih =>
    simp only [retime, List.map_cons] at ih ⊢
    rw [ih]

lemma gather_retime {α ε : Type} (f : ℤ → ℤ) (hs : List (Handle α ε)) :
    gather (retime f hs) = gather hs := by
  unfold gather
  rw [retime_outcomes]

lemma gather_first_failure {α ε : Type} :
    ∀ (hs : List (Handle α ε)) (e : ε), firstFailure hs = some e →
      gather hs = Except.error e := by
  intro hs
  induction hs with
  | nil =>
    intro e hf
    simp [firstFailure] at hf
  | cons h rest ih =>
    intro e hf
    rw [firstFailure, List.findSome?_cons] at hf
    cases hout : h.outcome with
    | success v =>
      rw [hout] at hf
      simp only at hf
      have := ih e hf
      simp only [gather, List.map_cons, gatherOutcomes, hout]
      rw [gather] at this
      rw [this]
    | failure e' =>
      rw [hout] at hf
      simp only [Option.some.injEq] at hf
      simp only [gather, List.map_cons, gatherOutcomes, hout, hf]

lemma gather_all_success {α ε : Type} :
    ∀ hs : List (Handle α ε), (∀ x ∈ hs, isSuccess x.outcome = true) →
      gather hs = Except.ok (successValues hs) := by
  intro hs
  induction hs with
  | nil =>
    intro _
    rfl
  | cons h rest ih =>
    intro hok
    have hh := hok h (List.mem_cons_self h rest)
    have hrest := ih fun x hx => hok x (List.mem_cons_of_mem h hx)
    cases hout : h.outcome with
    | success v =>
      simp only [gather, List.map_cons, gatherOutcomes, hout]
      rw [gather] at hrest
      rw [hrest]
      simp only [successValues, List.filterMap_cons, hout]
    | failure e =>
      rw [hout] at hh
      simp [isSuccess] at hh

lemma le_joinTime {α ε : Type} :
    ∀ (hs : List (Handle α ε)) (x : Handle α ε), x ∈ hs →
      x.completesAt ≤ joinTime hs := by
  intro hs
  induction hs with
  | nil =>
    intro x hx
    simp at hx
  | cons h rest ih =>
    intro x hx
    rw [List.mem_cons] at hx
    simp only [joinTime, List.map_cons, List.foldr_cons]
    rcases hx with hx | hx
    · rw [hx]
      exact le_max_left _ _
    · exact le_trans (ih x hx) (le_max_right _ _)

/-- C2: when at least one of the joined handles failed, the join fails with
the first failure in the order the handles were supplied — independent of the
wall-clock instants at which the tasks finished — and the join leaves every
task untouched (none of the other tasks is cancelled). -/
theorem c2_join_first_supplied_failure_no_cancellation {α ε : Type}
    (hs : List (Handle α ε)) (e : ε) (hf : firstFailure hs = some e) :
    gather hs = Except.error e ∧
    (∀ f : ℤ → ℤ, gather (retime f hs) = Except.error e) ∧
    (gatherRun hs).2 = hs := by
  refine ⟨gather_first_failure hs e hf, ?_, rfl⟩
  intro f
  rw [gather_retime]
  exact gather_first_failure hs e hf

theorem c2_join_first_supplied_failure_no_cancellation_witness :
    (firstFailure [(⟨9, Outcome.success 1⟩ : Handle ℕ ℕ),
        ⟨5, Outcome.failure 7⟩, ⟨0, Outcome.failure 8⟩] = some 7) ∧
    (gather [(⟨9, Outcome.success 1⟩ : Handle ℕ ℕ),
        ⟨5, Outcome.failure 7⟩, ⟨0, Outcome.failure 8⟩] = Except.error 7 ∧
      (∀ f : ℤ → ℤ, gather (retime f [(⟨9, Outcome.success 1⟩ : Handle ℕ ℕ),
        ⟨5, Outcome.failure 7⟩, ⟨0, Outcome.failure 8⟩]) = Except.error 7) ∧
      (gatherRun [(⟨9, Outcome.success 1⟩ : Handle ℕ ℕ),
        ⟨5, Outcome.failure 7⟩, ⟨0, Outcome.failure 8⟩]).2
        = [(⟨9, Outcome.success 1⟩ : Handle ℕ ℕ),
        ⟨5, Outcome.failure 7⟩, ⟨0, Outcome.failure 8⟩]) :=
  ⟨by decide,
    c2_join_first_supplied_failure_no_cancellation
      [(⟨9, Outcome.success 1⟩ : Handle ℕ ℕ),
        ⟨5, Outcome.failure 7⟩, ⟨0, Outcome.failure 8⟩] 7 (by decide)⟩

/-- C6: a join over K handles suspends until all K tasks are terminal (its
completion instant dominates every handle's) and returns the K results in the
order the handles were supplied, regardless of the wall-clock order in which
the tasks completed. -/
theorem c6_gather_preserves_supplied_order {α ε : Type}
    (hs : List (Handle α ε)) (hok : ∀ x ∈ hs, isSuccess x.outcome = true) :
    gather hs = Except.ok (successValues hs) ∧
    (∀ f : ℤ → ℤ, gather (retime f hs) = Except.ok (successValues hs)) ∧
    (∀ x ∈ hs, x.completesAt ≤ joinTime hs) := by
  refine ⟨gather_all_success hs hok, ?_, fun x hx => le_joinTime hs x hx⟩
  intro f
  rw [gather_retime]
  exact gather_all_success hs hok

theorem c6_gather_preserves_supplied_order_witness :
    (∀ x ∈ [(⟨3, Outcome.success 10⟩ : Handle ℕ ℕ),
        ⟨2, Outcome.success 20⟩, ⟨1, Outcome.success 30⟩], isSuccess x.outcome = true) ∧
    (gather [(⟨3, Outcome.success 10⟩ : Handle ℕ ℕ),
        ⟨2, Outcome.success 20⟩, ⟨1, Outcome.success 30⟩]
        = Except.ok (successValues [(⟨3, Outcome.success 10⟩ : Handle ℕ ℕ),
        ⟨2, Outcome.success 20⟩, ⟨1, Outcome.success 30⟩]) ∧
      (∀ f : ℤ → ℤ, gather (retime f [(⟨3, Outcome.success 10⟩ : Handle ℕ ℕ),
        ⟨2, Outcome.success 20⟩, ⟨1, Outcome.success 30⟩])
        = Except.ok (successValues [(⟨3, Outcome.success 10⟩ : Handle ℕ ℕ),
        ⟨2, Outcome.success 20⟩, ⟨1, Outcome.success 30⟩])) ∧
      (∀ x ∈ [(⟨3, Outcome.success 10⟩ : Handle ℕ ℕ),
        ⟨2, Outcome.success 20⟩, ⟨1, Outcome.success 30⟩],
        x.completesAt ≤ joinTime [(⟨3, Outcome.success 10⟩ : Handle ℕ ℕ),
        ⟨2, Outcome.success 20⟩, ⟨1, Outcome.success 30⟩])) :=
  ⟨by decide,
    c6_gather_preserves_supplied_order
      [(⟨3, Outcome.success 10⟩ : Handle ℕ ℕ),
        ⟨2, Outcome.success 20⟩, ⟨1, Outcome.success 30⟩] (by decide)⟩

/-- Events of the two-stage research pipeline of
src/deep_research_orchestrated_client.py. -/
inductive PipeEvent (α : Type)
  | submitSearch (idx : ℕ)
  | joinSearches
  | submitAnalysis (searchResults : List α)
  deriving DecidableEq, Repr

/-- Embedding of the stage structure of orchestrated_deep_research
(src/deep_research_orchestrated_client.py lines 77-113): one web_search task
is submitted per plan step, in plan order; all are gathered with
asyncio.gather; only then is the single analyze_research task submitted, and
its search_results input is exactly the gathered output list.  The join
itself is modelled from the spec (section 4.5); a failed gather propagates
and the analysis is never submitted. -/
def orchestratedTrace {α ε : Type} (hs : List (Handle α ε)) :
    Except ε (List (PipeEvent α)) :=
  match gather hs with
  | Except.error e => Except.error e
  | Except.ok outs =>
      Except.ok ((List.range hs.length).map PipeEvent.submitSearch
        ++ [PipeEvent.joinSearches, PipeEvent.submitAnalysis outs])

/-- C3: in the two-stage pipeline the trace is: all stage-one submissions,
then the join over all of them, and only then the single aggregate
submission; the aggregate's input equals the stage-one outputs in original
submission order, even when the stage-one tasks complete in any other
wall-clock order. -/
theorem c3_pipeline_barrier_and_ordered_input {α ε : Type}
    (hs : List (Handle α ε)) (hok : ∀ x ∈ hs, isSuccess x.outcome = true) :
    (∃ submits : List (PipeEvent α),
      orchestratedTrace hs
        = Except.ok (submits
            ++ [PipeEvent.joinSearches, PipeEvent.submitAnalysis (successValues hs)]) ∧
      (∀ i < hs.length, PipeEvent.submitSearch i ∈ submits) ∧
      (∀ e ∈ submits, ∃ i, e = PipeEvent.submitSearch i)) ∧
    (∀ f : ℤ → ℤ, orchestratedTrace (retime f hs) = orchestratedTrace hs) := by
  constructor
  · refine ⟨(List.range hs.length).map PipeEvent.submitSearch, ?_, ?_, ?_⟩
    · unfold orchestratedTrace
      rw [gather_all_success hs hok]
    · intro i hi
      exact List.mem_map_of_mem PipeEvent.submitSearch (List.mem_range.mpr hi)
    · intro e he
      rcases List.mem_map.mp he with ⟨i, _, hie⟩
      exact ⟨i, hie.symm⟩
  · intro f
    unfold orchestratedTrace
    rw [gather_retime]
    have hlen : (retime f hs).length = hs.length := List.length_map hs _
    rw [hlen]

theorem c3_pipeline_barrier_and_ordered_input_witness :
    (∀ x ∈ [(⟨8, Outcome.success 11⟩ : Handle ℕ ℕ),
        ⟨6, Outcome.success 22⟩, ⟨4, Outcome.success 33⟩], isSuccess x.outcome = true) ∧
    ((∃ submits : List (PipeEvent ℕ),
      orchestratedTrace [(⟨8, Outcome.success 11⟩ : Handle ℕ ℕ),
        ⟨6, Outcome.success 22⟩, ⟨4, Outcome.success 33⟩]
        = Except.ok (submits
            ++ [PipeEvent.joinSearches,
              PipeEvent.submitAnalysis (successValues
                [(⟨8, Outcome.success 11⟩ : Handle ℕ ℕ),
                  ⟨6, Outcome.success 22⟩, ⟨4, Outcome.success 33⟩])]) ∧
      (∀ i < ([(⟨8, Outcome.success 11⟩ : Handle ℕ ℕ),
        ⟨6, Outcome.success 22⟩, ⟨4, Outcome.success 33⟩] : List (Handle ℕ ℕ)).length,
        PipeEvent.submitSearch i ∈ submits) ∧
      (∀ e ∈ submits, ∃ i, e = PipeEvent.submitSearch i)) ∧
    (∀ f : ℤ → ℤ,
      orchestratedTrace (retime f [(⟨8, Outcome.success 11⟩ : Handle ℕ ℕ),
        ⟨6, Outcome.success 22⟩, ⟨4, Outcome.success 33⟩])
        = orchestratedTrace [(⟨8, Outcome.success 11⟩ : Handle ℕ ℕ),
        ⟨6, Outcome.success 22⟩, ⟨4, Outcome.success 33⟩])) :=
  ⟨by decide,
    c3_pipeline_barrier_and_ordered_input
      [(⟨8, Outcome.success 11⟩ : Handle ℕ ℕ),
        ⟨6, Outcome.success 22⟩, ⟨4, Outcome.success 33⟩] (by decide)⟩

/-- Modelled from the spec (section 3): the Task Record the Registry holds
for one identifier — its lifecycle state and the cached result, present once
the task completed. -/
structure TaskRecord (α : Type) where
  state : TaskState
  cached : Option α
  deriving DecidableEq, Repr

/-- Modelled from the spec: the Registry's state for one submitted task,
together with the execution counter of spec section 8 (the side-effecting
counter in the work body used to verify at-most-once execution). -/
structure RegistryState (α : Type) where
  record : TaskRecord α
  execCount : ℕ
  deriving DecidableEq, Repr

/-- The record as created by submit: pending, nothing cached, work never
run. -/
def submittedState (α : Type) : RegistryState α :=
  ⟨⟨TaskState.pending, none⟩, 0⟩

/-- Modelled from the spec (section 4.2): the Executor runs the work item of
a pending record exactly once, transitions it to completed and caches the
produced value; a record that is no longer pending is never re-executed. -/
def runWork {α : Type} (work : Unit → α) (s : RegistryState α) : RegistryState α :=
  match s.record.state with
  | TaskState.pending => ⟨⟨TaskState.completed, some (work ())⟩, s.execCount + 1⟩
  | _ => s

/-- Modelled from the spec (section 4.3): result() on a terminal record is a
read of the cached value through the Registry and mutates nothing.  Every
Handle bound to the same identifier — however it was constructed — reads the
same registry record, so one read operation covers them all. -/
def resultCall {α : Type} (s : RegistryState α) : Option α × RegistryState α :=
  (s.record.cached, s)

/-- n successive result() calls, threading the registry state. -/
def resultCalls {α : Type} : ℕ → RegistryState α → List (Option α) × RegistryState α
  | 0, s => ([], s)
  | n + 1, s =>
      let r := resultCall s
      let rest := resultCalls n r.2
      (r.1 :: rest.1, rest.2)

lemma resultCalls_spec {α : Type} :
    ∀ (n : ℕ) (s : RegistryState α),
      (resultCalls n s).1 = List.replicate n s.record.cached ∧
      (resultCalls n s).2 = s := by
  intro n
  induction n with
  | zero =>
    intro s
    exact ⟨rfl, rfl⟩
  | succ n ih =>
    intro s
    have := ih s
    simp only [resultCalls, resultCall, List.replicate]
    exact ⟨by rw [(this).1], (this).2⟩

/-- C4: running the submitted work completes the task and bumps the execution
counter to one; once completed, re-running is a no-op (at-most-once
execution), and any number of result() calls — from however many Handles
bound to the identifier — all return the identical cached value and leave
the registry untouched. -/
theorem c4_result_idempotent_work_runs_once {α : Type} (work : Unit → α) (n : ℕ) :
    (runWork work (submittedState α)).execCount = 1 ∧
    runWork work (runWork work (submittedState α)) = runWork work (submittedState α) ∧
    (resultCalls n (runWork work (submittedState α))).1
      = List.replicate n (some (work ())) ∧
    (resultCalls n (runWork work (submittedState α))).2
      = runWork work (submittedState α) := by
  have hrun : runWork work (submittedState α)
      = ⟨⟨TaskState.completed, some (work ())⟩, 1⟩ := rfl
  refine ⟨rfl, ?_, ?_, (resultCalls_spec n _).2⟩
  · rw [hrun]
    rfl
  · rw [(resultCalls_spec n _).1, hrun]

/-- Modelled from the spec (sections 4.2, 5, 8): work items submitted
together all start immediately (fan-out) and make progress independently, so
each finishes after exactly its own duration; the join over the batch
completes at the latest finish.  A sequential executor, by contrast, starts
each item when the previous one ends. -/
def startTimesConcurrent (durations : List ℤ) : List ℤ :=
  durations.map fun _ => 0

/-- Finish instants under the concurrent executor: start plus own duration. -/
def finishTimesConcurrent (durations : List ℤ) : List ℤ :=
  List.zipWith (fun s d => s + d) (startTimesConcurrent durations) durations

/-- Instant at which a join over the whole batch returns (concurrent). -/
def joinTimeConcurrent (durations : List ℤ) : ℤ :=
  (finishTimesConcurrent durations).foldr max 0

/-- Finish instants under a sequential executor starting at instant t. -/
def finishTimesSequential : ℤ → List ℤ → List ℤ
  | _, [] => []
  | t, d :: ds => (t + d) :: finishTimesSequential (t + d) ds

/-- Instant at which a join over the whole batch returns (sequential). -/
def joinTimeSequential (durations : List ℤ) : ℤ :=
  (finishTimesSequential 0 durations).foldr max 0

lemma finishTimesConcurrent_eq (durations : List ℤ) :
    finishTimesConcurrent durations = durations := by
  induction durations with
  | nil => rfl
  | cons d ds ih =>
    simp only [finishTimesConcurrent, startTimesConcurrent, List.map_cons,
      List.zipWith_cons_cons, zero_add] at ih ⊢
    rw [ih]

/-- C8: independent work items progress independently — under the concurrent
executor every task of the batch has finished by the join instant, and for
the demo batch of durations 3, 2 and 1 seconds (src/demo.py lines 120-146)
the join returns at 3 seconds, the duration of the slowest item (within the
claim's 3.5 s tolerance), not at the 6-second sum a sequential executor
would need. -/
theorem c8_concurrent_join_is_max_not_sum :
    (∀ (durations : List ℤ), ∀ d ∈ durations, d ≤ joinTimeConcurrent durations) ∧
    joinTimeConcurrent [3, 2, 1] = 3 ∧
    joinTimeSequential [3, 2, 1] = 6 ∧
    2 * joinTimeConcurrent [3, 2, 1] ≤ 7 ∧
    joinTimeConcurrent [3, 2, 1] < joinTimeSequential [3, 2, 1] := by
  refine ⟨?_, by decide, by decide, by decide, by decide⟩
  intro durations d hd
  unfold joinTimeConcurrent
  rw [finishTimesConcurrent_eq]
  induction durations with
  | nil => simp at hd
  | cons x ds ih =>
    rw [List.mem_cons] at hd
    simp only [List.foldr_cons]
    rcases hd with hd | hd
    · rw [hd]
      exact le_max_left _ _
    · exact le_trans (ih hd) (le_max_right _ _)

theorem c8_concurrent_join_is_max_not_sum_witness :
    ((3 : ℤ) ∈ ([3, 2, 1] : List ℤ)) ∧ (3 : ℤ) ≤ joinTimeConcurrent [3, 2, 1] :=
  ⟨by decide, c8_concurrent_join_is_max_not_sum.1 [3, 2, 1] 3 (by decide)⟩

end TaskEngine
